import Mathlib

/-!
Verification of the whiteboard geometric interaction engine: a shallow
embedding in Lean 4 of the coordinate transforms, geometry kernel, bounds
and hit-testing, shape rasterization, eraser segmentation and the undo/redo
history manager, together with theorems settling the specification's claims.

Numeric conventions of the embedding: coordinates are exact rationals (`ℚ`).
The transcendental operations of the JS `Math` object (`sqrt`, `cos`, `sin`,
`PI`, `acos`) are parameters collected in `RealFns`; `acos` returns `none`
to model the `NaN` that JS produces on arguments outside `[-1, 1]`.
JS-specific value semantics (falsy `||` defaults, division by zero producing
`Infinity`/`NaN`) are modelled explicitly where the code relies on them.
-/

namespace Whiteboard

/-- A point `{x, y}` in world units (src/types.ts). -/
structure Point where
  x : ℚ
  y : ℚ
deriving DecidableEq

/-- The view state `{x, y, scale}`: screen-space offset and uniform zoom
(src/types.ts). -/
structure ViewState where
  x : ℚ
  y : ℚ
  scale : ℚ
deriving DecidableEq

/-- The operations of JS `Math` used by the source that have no exact rational
counterpart.  `acos` returns `none` for the `NaN` result JS produces on
arguments outside `[-1, 1]` (or on a non-finite argument). -/
structure RealFns where
  sqrt : ℚ → ℚ
  cos : ℚ → ℚ
  sin : ℚ → ℚ
  pi : ℚ
  acos : ℚ → Option ℚ

/-- Source `screenToWorld` (utils module): `((p.x - view.x) / view.scale,
(p.y - view.y) / view.scale)`. -/
def screenToWorld (point : Point) (view : ViewState) : Point :=
  ⟨(point.x - view.x) / view.scale, (point.y - view.y) / view.scale⟩

/-- Source `worldToScreen` (utils module): `(p.x * view.scale + view.x,
p.y * view.scale + view.y)`. -/
def worldToScreen (point : Point) (view : ViewState) : Point :=
  ⟨point.x * view.scale + view.x, point.y * view.scale + view.y⟩

/-- Source `distance`: `Math.sqrt((a.x-b.x)^2 + (a.y-b.y)^2)`. -/
def distance (rf : RealFns) (a b : Point) : ℚ :=
  rf.sqrt ((a.x - b.x) ^ 2 + (a.y - b.y) ^ 2)

/-- Source `isPointNearLine(p, a, b, threshold)`: perpendicular distance to the
infinite line below `threshold`, plus a threshold-expanded bounding-box check;
a zero-length segment falls back to point distance. -/
def isPointNearLine (rf : RealFns) (p a b : Point) (threshold : ℚ) : Bool :=
  let len := distance rf a b
  if len = 0 then decide (distance rf p a < threshold)
  else
    let dist := |(b.y - a.y) * p.x - (b.x - a.x) * p.y + b.x * a.y - b.y * a.x| / len
    let minX := min a.x b.x - threshold
    let maxX := max a.x b.x + threshold
    let minY := min a.y b.y - threshold
    let maxY := max a.y b.y + threshold
    decide (dist < threshold ∧ minX ≤ p.x ∧ p.x ≤ maxX ∧ minY ≤ p.y ∧ p.y ≤ maxY)

/-- Source `getTriangleArea`: shoelace formula, always non-negative. -/
def getTriangleArea (p1 p2 p3 : Point) : ℚ :=
  (1 / 2) * |p1.x * (p2.y - p3.y) + p2.x * (p3.y - p1.y) + p3.x * (p1.y - p2.y)|

/-- Source `isPointInTriangle`: barycentric-area equality test with absolute
tolerance `1`. -/
def isPointInTriangle (p p1 p2 p3 : Point) : Bool :=
  let areaOrig := getTriangleArea p1 p2 p3
  let area1 := getTriangleArea p p2 p3
  let area2 := getTriangleArea p1 p p3
  let area3 := getTriangleArea p1 p2 p
  decide (|areaOrig - (area1 + area2 + area3)| < 1)

/-- JS division as used in `getTriangleAngles`: `some (x / y)` when the
divisor is nonzero; `none` stands for the non-finite result (`±Infinity` for
`x ≠ 0`, `NaN` for `0/0`) of dividing by zero — every one of those values has
`Math.acos` equal to `NaN`, which is all the callers observe. -/
def jsDiv (x y : ℚ) : Option ℚ := if y = 0 then none else some (x / y)

/-- JS `v || 0` applied to an angle value: `NaN` (modelled `none`) becomes
`0`; the value `0` itself is also falsy in JS and maps to `0`, which
coincides with just returning it. -/
def orZero (v : Option ℚ) : ℚ := v.getD 0

/-- Source `radToDeg`: `rad * (180 / Math.PI)`. -/
def radToDeg (rf : RealFns) (rad : ℚ) : ℚ := rad * (180 / rf.pi)

/-- Result record of `getTriangleAngles`: angles `A, B, C` in degrees and
side lengths `a, b, c`. -/
structure TriangleAngles where
  A : ℚ
  B : ℚ
  C : ℚ
  a : ℚ
  b : ℚ
  c : ℚ
deriving DecidableEq

/-- Source `getTriangleAngles`: squared side lengths via `distance`, side lengths by
`Math.sqrt`, angles in degrees by the law of cosines, with `|| 0` turning the
`NaN` of an out-of-domain `acos` (or of a division by a zero side product)
into `0`. -/
def getTriangleAngles (rf : RealFns) (p1 p2 p3 : Point) : TriangleAngles :=
  let a2 := distance rf p2 p3 ^ 2
  let b2 := distance rf p1 p3 ^ 2
  let c2 := distance rf p1 p2 ^ 2
  let a := rf.sqrt a2
  let b := rf.sqrt b2
  let c := rf.sqrt c2
  let A := orZero (Option.map (radToDeg rf) ((jsDiv (b2 + c2 - a2) (2 * b * c)).bind rf.acos))
  let B := orZero (Option.map (radToDeg rf) ((jsDiv (a2 + c2 - b2) (2 * a * c)).bind rf.acos))
  let C := orZero (Option.map (radToDeg rf) ((jsDiv (a2 + b2 - c2) (2 * a * b)).bind rf.acos))
  ⟨A, B, C, a, b, c⟩

/-- The value of `Math.ceil(dist / spacing)` inside `interpolatePoints`,
keeping the JS semantics of division by zero: `inf`/`negInf` model
`±Infinity` and `nan` models `NaN` (from `0 / 0`). -/
inductive StepCount where
  | fin (n : ℤ)
  | inf
  | negInf
  | nan
deriving DecidableEq

/-- How many iterations the loop `for (let i = 0; i < steps; i++)` of
`interpolatePoints` performs for a given step count: `none` means the loop
never terminates (`i < Infinity` stays true); `i < NaN` and `i < -Infinity`
are false, so those loops run zero times. -/
def StepCount.iterations : StepCount → Option ℕ
  | .fin n => some n.toNat
  | .inf => none
  | .negInf => some 0
  | .nan => some 0

/-- The step count `Math.ceil(distance(p1, p2) / spacing)` computed by
`interpolatePoints`, with JS division-by-zero semantics made explicit. -/
def interpSteps (rf : RealFns) (p1 p2 : Point) (spacing : ℚ) : StepCount :=
  let dist := distance rf p1 p2
  if spacing = 0 then
    if dist = 0 then .nan
    else if 0 < dist then .inf
    else .negInf
  else .fin ⌈dist / spacing⌉

/-- Source `interpolatePoints(p1, p2, spacing)`: `steps` evenly spaced points from
`p1` towards (excluding) `p2`.  The result is `none` exactly when the JS loop
does not terminate (`steps = Infinity`, see `interpSteps`). -/
def interpolatePoints (rf : RealFns) (p1 p2 : Point) (spacing : ℚ) : Option (List Point) :=
  match interpSteps rf p1 p2 spacing with
  | .inf => none
  | .nan | .negInf => some []
  | .fin n =>
      some ((List.range n.toNat).map fun i =>
        let t : ℚ := (i : ℚ) / (n : ℚ)
        ⟨p1.x + (p2.x - p1.x) * t, p1.y + (p2.y - p1.y) * t⟩)

/-- The fields of `BaseElement` shared by every variant (src/types.ts),
apart from the per-variant `x`/`y` which are carried by the variants. -/
structure BaseFields where
  id : String
  rotation : Option ℚ
  strokeColor : Option String
  fillColor : Option String
  strokeWidth : Option ℚ
deriving DecidableEq

/-- The tagged union `WhiteboardElement` (src/types.ts): Rectangle, Circle,
Triangle, Arrow, Pencil, Image.  Every variant carries the base `x`/`y`. -/
inductive WhiteboardElement where
  | rectangle (base : BaseFields) (x y width height : ℚ)
  | circle (base : BaseFields) (x y radius : ℚ)
  | triangle (base : BaseFields) (x y : ℚ) (p1 p2 p3 : Point)
  | arrow (base : BaseFields) (x y endX endY : ℚ)
  | pencil (base : BaseFields) (x y : ℚ) (points : List Point)
  | image (base : BaseFields) (x y width height : ℚ) (src : String)
deriving DecidableEq

/-- The shared base fields of an element. -/
def WhiteboardElement.base : WhiteboardElement → BaseFields
  | .rectangle b _ _ _ _ => b
  | .circle b _ _ _ => b
  | .triangle b _ _ _ _ _ => b
  | .arrow b _ _ _ _ => b
  | .pencil b _ _ _ => b
  | .image b _ _ _ _ _ => b

/-- Axis-aligned bounds `{minX, minY, maxX, maxY}` (src/utils/BoundsUtils.ts). -/
structure Bounds where
  minX : ℚ
  minY : ℚ
  maxX : ℚ
  maxY : ℚ
deriving DecidableEq

/-- The rectangle/image branch of `getElementBounds`: `min`/`max` of the two
corners via `x = min(r.x, r.x + r.width)`, `w = |r.width|`, etc. -/
def rectBounds (rx ry w h : ℚ) : Bounds :=
  let x := min rx (rx + w)
  let y := min ry (ry + h)
  ⟨x, y, x + |w|, y + |h|⟩

/-- JS `Math.min(...)` over a nonempty list of values (empty list defaults to
`0`, a case the source never reaches on this path). -/
def listMin : List ℚ → ℚ
  | [] => 0
  | q :: qs => qs.foldl min q

/-- JS `Math.max(...)` over a nonempty list of values. -/
def listMax : List ℚ → ℚ
  | [] => 0
  | q :: qs => qs.foldl max q

/-- Source `getElementBounds(el)` (src/utils/BoundsUtils.ts): per-variant axis-aligned
bounding box; an empty Pencil yields the zero bounds at the origin. -/
def getElementBounds : WhiteboardElement → Bounds
  | .rectangle _ rx ry w h => rectBounds rx ry w h
  | .image _ rx ry w h _ => rectBounds rx ry w h
  | .circle _ cx cy r => ⟨cx - r, cy - r, cx + r, cy + r⟩
  | .triangle _ _ _ p1 p2 p3 =>
      ⟨listMin [p1.x, p2.x, p3.x], listMin [p1.y, p2.y, p3.y],
       listMax [p1.x, p2.x, p3.x], listMax [p1.y, p2.y, p3.y]⟩
  | .arrow _ ax ay ex ey => ⟨min ax ex, min ay ey, max ax ex, max ay ey⟩
  | .pencil _ _ _ pts =>
      if pts = [] then ⟨0, 0, 0, 0⟩
      else ⟨listMin (pts.map Point.x), listMin (pts.map Point.y),
            listMax (pts.map Point.x), listMax (pts.map Point.y)⟩

/-- Source `isPointInBounds(p, b, padding)`: inclusive containment with symmetric
padding. -/
def isPointInBounds (p : Point) (b : Bounds) (padding : ℚ) : Bool :=
  decide (b.minX - padding ≤ p.x ∧ p.x ≤ b.maxX + padding ∧
          b.minY - padding ≤ p.y ∧ p.y ≤ b.maxY + padding)

/-- Source `hitTestElement(el, pos, zoom)` (src/utils/BoundsUtils.ts): tolerance
threshold `10 / zoom`; exact containment for rectangles/images, interior-only
for circles, barycentric test for triangles, near-line test for arrows, and
for pencils a padded bounds pre-check followed by a near-line test on every
consecutive point pair. -/
def hitTestElement (rf : RealFns) (el : WhiteboardElement) (pos : Point) (zoom : ℚ) : Bool :=
  let threshold := 10 / zoom
  match el with
  | .rectangle _ rx ry w h =>
      let x := min rx (rx + w)
      let y := min ry (ry + h)
      decide (x ≤ pos.x ∧ pos.x ≤ x + |w| ∧ y ≤ pos.y ∧ pos.y ≤ y + |h|)
  | .image _ rx ry w h _ =>
      let x := min rx (rx + w)
      let y := min ry (ry + h)
      decide (x ≤ pos.x ∧ pos.x ≤ x + |w| ∧ y ≤ pos.y ∧ pos.y ≤ y + |h|)
  | .circle _ cx cy r => decide (distance rf pos ⟨cx, cy⟩ ≤ r)
  | .triangle _ _ _ p1 p2 p3 => isPointInTriangle pos p1 p2 p3
  | .arrow _ ax ay ex ey => isPointNearLine rf pos ⟨ax, ay⟩ ⟨ex, ey⟩ threshold
  | .pencil b px py pts =>
      let bounds := getElementBounds (.pencil b px py pts)
      if isPointInBounds pos bounds threshold then
        (pts.zip pts.tail).any fun pq => isPointNearLine rf pos pq.1 pq.2 threshold
      else false

/-- Source `convertShapeToPoints(el, spacing)` (utils module): dense ordered polyline
approximation of a shape.  The `Option` propagates the non-terminating case of
`interpolatePoints`; on an empty Pencil the source would push the `undefined`
value `points[-1]`, modelled here as the empty list (no caller reaches it).
For circles, `t = i / steps` uses rational division (`0 / 0 = 0` here where JS
yields a `NaN` point for a radius-0 circle; no claim depends on that corner). -/
def convertShapeToPoints (rf : RealFns) (el : WhiteboardElement) (spacing : ℚ) :
    Option (List Point) :=
  match el with
  | .pencil _ _ _ pts => do
      let segs ← (pts.zip pts.tail).mapM fun pq => interpolatePoints rf pq.1 pq.2 spacing
      match pts.getLast? with
      | some last => pure (segs.flatten ++ [last])
      | none => pure []
  | .rectangle _ rx ry w h => do
      let q1 : Point := ⟨rx, ry⟩
      let q2 : Point := ⟨rx + w, ry⟩
      let q3 : Point := ⟨rx + w, ry + h⟩
      let q4 : Point := ⟨rx, ry + h⟩
      let e1 ← interpolatePoints rf q1 q2 spacing
      let e2 ← interpolatePoints rf q2 q3 spacing
      let e3 ← interpolatePoints rf q3 q4 spacing
      let e4 ← interpolatePoints rf q4 q1 spacing
      pure (e1 ++ e2 ++ e3 ++ e4 ++ [q1])
  | .image _ rx ry w h _ => do
      let q1 : Point := ⟨rx, ry⟩
      let q2 : Point := ⟨rx + w, ry⟩
      let q3 : Point := ⟨rx + w, ry + h⟩
      let q4 : Point := ⟨rx, ry + h⟩
      let e1 ← interpolatePoints rf q1 q2 spacing
      let e2 ← interpolatePoints rf q2 q3 spacing
      let e3 ← interpolatePoints rf q3 q4 spacing
      let e4 ← interpolatePoints rf q4 q1 spacing
      pure (e1 ++ e2 ++ e3 ++ e4 ++ [q1])
  | .triangle _ _ _ p1 p2 p3 => do
      let e1 ← interpolatePoints rf p1 p2 spacing
      let e2 ← interpolatePoints rf p2 p3 spacing
      let e3 ← interpolatePoints rf p3 p1 spacing
      pure (e1 ++ e2 ++ e3 ++ [p1])
  | .circle _ cx cy r =>
      let steps := ⌈2 * rf.pi * r / spacing⌉
      some ((List.range (steps.toNat + 1)).map fun i =>
        let angle := ((i : ℚ) / (steps : ℚ)) * (2 * rf.pi)
        ⟨cx + r * rf.cos angle, cy + r * rf.sin angle⟩)
  | .arrow _ ax ay ex ey => do
      let e1 ← interpolatePoints rf ⟨ax, ay⟩ ⟨ex, ey⟩ spacing
      pure (e1 ++ [⟨ex, ey⟩])

/-- JS `v || d` on an optional numeric field: a missing field and the falsy
value `0` both fall back to the default. -/
def jsOrNum (v : Option ℚ) (d : ℚ) : ℚ :=
  match v with
  | none => d
  | some q => if q = 0 then d else q

/-- JS `v || d` on an optional string field: a missing field and the falsy
empty string both fall back to the default. -/
def jsOrStr (v : Option String) (d : String) : String :=
  match v with
  | none => d
  | some s => if s = "" then d else s

/-- The points fed to `updateBounds` by `isElementRoughlyIntersecting`, per
variant. -/
def roughPoints : WhiteboardElement → List Point
  | .pencil _ _ _ pts => pts
  | .rectangle _ rx ry w h => [⟨rx, ry⟩, ⟨rx + w, ry + h⟩]
  | .image _ rx ry w h _ => [⟨rx, ry⟩, ⟨rx + w, ry + h⟩]
  | .circle _ cx cy r => [⟨cx - r, cy - r⟩, ⟨cx + r, cy + r⟩]
  | .triangle _ _ _ p1 p2 p3 => [p1, p2, p3]
  | .arrow _ ax ay ex ey => [⟨ax, ay⟩, ⟨ex, ey⟩]

/-- Source `isElementRoughlyIntersecting(el, eraser, radius)` (utils module): does the
eraser center lie inside the element's axis-aligned bounds expanded by
`(el.strokeWidth || 2) + radius`?  When no point updates the bounds (an empty
Pencil) the bounds stay at `±Infinity` and every JS comparison is false. -/
def isElementRoughlyIntersecting (el : WhiteboardElement) (eraser : Point) (radius : ℚ) : Bool :=
  match roughPoints el with
  | [] => false
  | q :: qs =>
      let minX := (qs.map Point.x).foldl min q.x
      let maxX := (qs.map Point.x).foldl max q.x
      let minY := (qs.map Point.y).foldl min q.y
      let maxY := (qs.map Point.y).foldl max q.y
      let padding := jsOrNum el.base.strokeWidth 2 + radius
      decide (minX - padding ≤ eraser.x ∧ eraser.x ≤ maxX + padding ∧
              minY - padding ≤ eraser.y ∧ eraser.y ≤ maxY + padding)

/-- Constant `ERASER_RADIUS` (screen pixels) from the whiteboard component. -/
def ERASER_RADIUS : ℚ := 20

/-- The component state `performErase` closes over: the view (for the
scale-adjusted radius and spacing), the active stroke color and width, and the
impure `generateId` modelled as a supply `genId` indexed by call count. -/
structure EraseCtx where
  view : ViewState
  activeColor : String
  activeStrokeWidth : ℚ
  genId : ℕ → String

/-- The segmentation walk of `performErase`: points farther than `radius`
from the eraser extend the current run; a point within `radius` closes off a
non-empty current run; a non-empty trailing run is closed off at the end. -/
def eraseWalk (rf : RealFns) (worldPos : Point) (radius : ℚ) (points : List Point) :
    List (List Point) :=
  let step := fun (acc : List (List Point) × List Point) (p : Point) =>
    if radius < distance rf p worldPos then (acc.1, acc.2 ++ [p])
    else if acc.2 = [] then acc
    else (acc.1 ++ [acc.2], ([] : List Point))
  let acc := points.foldl step ([], [])
  if acc.2 = [] then acc.1 else acc.1 ++ [acc.2]

/-- One iteration of the `performErase` loop over the shape list, threading
the accumulated new list, the `hasChanges` flag and the `generateId` call
count. -/
def eraseStep (rf : RealFns) (ctx : EraseCtx) (worldPos : Point) (radius : ℚ)
    (acc : List WhiteboardElement × Bool × ℕ) (el : WhiteboardElement) :
    Option (List WhiteboardElement × Bool × ℕ) :=
  let (newList, hasChanges, k) := acc
  if isElementRoughlyIntersecting el worldPos radius = false then
    some (newList ++ [el], hasChanges, k)
  else do
    let points ← convertShapeToPoints rf el (5 / ctx.view.scale)
    let newSegments := eraseWalk rf worldPos radius points
    if newSegments.length = 1 ∧ (newSegments.headD []).length = points.length then
      some (newList ++ [el], hasChanges, k)
    else
      let keep := newSegments.filter fun seg => 1 < seg.length
      let pencils := keep.enum.map fun ik =>
        WhiteboardElement.pencil
          ⟨ctx.genId (k + ik.1), none,
           some (jsOrStr el.base.strokeColor ctx.activeColor), none,
           some (jsOrNum el.base.strokeWidth ctx.activeStrokeWidth)⟩
          (ik.2.headD ⟨0, 0⟩).x (ik.2.headD ⟨0, 0⟩).y ik.2
      some (newList ++ pencils, true, k + keep.length)

/-- Source `performErase(worldPos, currentList)` (src/unnamed/part_003): eraser
radius `ERASER_RADIUS / view.scale`; shapes failing the rough-bounds check
pass through; surviving shapes are rasterized at spacing `5 / view.scale` and
segmented, an untouched single full-length run passes the shape through, and
otherwise each run of length ≥ 2 becomes a fresh Pencil.  Returns the input
list itself when no shape changed; `none` propagates the non-terminating
rasterization case. -/
def performErase (rf : RealFns) (ctx : EraseCtx) (worldPos : Point)
    (currentList : List WhiteboardElement) : Option (List WhiteboardElement) :=
  let radius := ERASER_RADIUS / ctx.view.scale
  match currentList.foldlM (eraseStep rf ctx worldPos radius) ([], false, 0) with
  | none => none
  | some res => some (if res.2.1 then res.1 else currentList)

/-- The state of the `useHistory` hook (src/unnamed/part_000): the snapshot
stack and the current index.  The hook never inspects the elements of a
snapshot, so the snapshot type is a parameter. -/
structure HistoryState (α : Type) where
  history : List α
  currentIndex : ℕ
deriving DecidableEq

/-- Source `pushToHistory(elements)`: truncate the stack to `[0, currentIndex]`,
append the new snapshot, evict the oldest entry when the length exceeds 50,
and point `currentIndex` at the new tail. -/
def pushToHistory {α : Type} (st : HistoryState α) (elements : α) : HistoryState α :=
  let newHistory := st.history.take (st.currentIndex + 1) ++ [elements]
  let newHistory := if 50 < newHistory.length then newHistory.drop 1 else newHistory
  ⟨newHistory, newHistory.length - 1⟩

/-- Source `undo()`: decrement `currentIndex` and return the snapshot now current;
a no-op returning `none` at index 0. -/
def undo {α : Type} (st : HistoryState α) : HistoryState α × Option α :=
  if 0 < st.currentIndex then
    (⟨st.history, st.currentIndex - 1⟩, st.history[st.currentIndex - 1]?)
  else (st, none)

/-- Source `redo()`: increment `currentIndex` and return the snapshot now current;
a no-op returning `none` at the tail. -/
def redo {α : Type} (st : HistoryState α) : HistoryState α × Option α :=
  if st.currentIndex < st.history.length - 1 then
    (⟨st.history, st.currentIndex + 1⟩, st.history[st.currentIndex + 1]?)
  else (st, none)

/-- Source `canUndo`: `currentIndex > 0`. -/
def canUndo {α : Type} (st : HistoryState α) : Bool := decide (0 < st.currentIndex)

/-- Source `canRedo`: `currentIndex < history.length - 1`. -/
def canRedo {α : Type} (st : HistoryState α) : Bool :=
  decide (st.currentIndex < st.history.length - 1)

/-- Pushing a sequence of snapshots one after the other. -/
def pushAll {α : Type} (st : HistoryState α) (snaps : List α) : HistoryState α :=
  snaps.foldl pushToHistory st

/-- The last `50` entries of a list: the shape of the history stack after the
cap is enforced. -/
def tailCap {α : Type} (L : List α) : List α := L.drop (L.length - 50)

/-- Exact rational square root on perfect squares; instantiates `RealFns.sqrt`
at the concrete inputs of witnesses, where `Math.sqrt` is exact. -/
def ratSqrt (q : ℚ) : ℚ := (Nat.sqrt q.num.toNat : ℚ) / (Nat.sqrt q.den : ℚ)

/-- A concrete, fully computable `RealFns` used by the witnesses; only the
facts each theorem assumes about it matter. -/
def qFns : RealFns where
  sqrt := ratSqrt
  cos := fun _ => 1
  sin := fun _ => 0
  pi := 355 / 113
  acos := fun q => if q < -1 ∨ 1 < q then none else some 0

/-- Base fields used for the concrete elements of witnesses and
counterexamples. -/
def sampleBase : BaseFields := ⟨"el1", none, none, none, none⟩

/-- A concrete erase context for witnesses. -/
def sampleCtx : EraseCtx := ⟨⟨0, 0, 1⟩, "#000000", 2, fun _ => "p1"⟩

/-- Side condition distinguishing the shapes the drawing code can construct:
a circle's radius is a `distance`, hence non-negative; every other variant is
unconstrained. -/
def radiusNonneg : WhiteboardElement → Bool
  | .circle _ _ _ r => decide (0 ≤ r)
  | _ => true

section Theorems

/-- Folding `min` only ever decreases the accumulator. -/
lemma foldl_min_le (q : ℚ) (l : List ℚ) : l.foldl min q ≤ q := by
  induction l generalizing q with
  | nil => exact le_refl q
  | cons x xs ih => exact le_trans (ih (min q x)) (min_le_left q x)

/-- Folding `max` only ever increases the accumulator. -/
lemma le_foldl_max (q : ℚ) (l : List ℚ) : q ≤ l.foldl max q := by
  induction l generalizing q with
  | nil => exact le_refl q
  | cons x xs ih => exact le_trans (le_max_left q x) (ih (max q x))

set_option maxRecDepth 8192 in
/-- Claim C1, counterexample: from the stack `[s0, s1, s2, s3, s4]` at index 4,
`undo(); undo(); push(X)` does not produce the 3-entry stack `[s0, s1, X]` at
index 2 that the claim asserts (the code keeps the snapshot at `currentIndex`
when truncating, yielding 4 entries). -/
theorem c1_counterexample :
    ¬ ((pushToHistory (undo (undo (⟨[0, 1, 2, 3, 4], 4⟩ : HistoryState ℕ)).1).1 9).history
          = [0, 1, 9] ∧
       (pushToHistory (undo (undo (⟨[0, 1, 2, 3, 4], 4⟩ : HistoryState ℕ)).1).1 9).currentIndex
          = 2) := by
  decide

/-- Claim C1, amended: from a stack of 5 snapshots at index 4,
`undo(); undo(); push(X)` yields a stack of exactly 4 entries
`[s0, s1, s2, X]` with `currentIndex = 3` and `canRedo = false` (the push
truncates the stack to `[0, currentIndex]` inclusive before appending). -/
theorem c1_branch_discard {α : Type} (s0 s1 s2 s3 s4 x : α) :
    pushToHistory (undo (undo (⟨[s0, s1, s2, s3, s4], 4⟩ : HistoryState α)).1).1 x
        = ⟨[s0, s1, s2, x], 3⟩ ∧
    canRedo (pushToHistory (undo (undo (⟨[s0, s1, s2, s3, s4], 4⟩ : HistoryState α)).1).1 x)
        = false :=
  ⟨rfl, rfl⟩

/-- Claim C2, counterexample: `getElementBounds` of the negative-width
rectangle `{x:0, y:0, width:-100, height:50}` is not
`{minX:0, minY:0, maxX:100, maxY:50}`. -/
theorem c2_counterexample :
    getElementBounds (.rectangle sampleBase 0 0 (-100) 50) ≠ ⟨0, 0, 100, 50⟩ := by
  norm_num [getElementBounds, rectBounds]

/-- Claim C2, amended: the rectangle `{x:0, y:0, width:100, height:50}` has
bounds `{minX:0, minY:0, maxX:100, maxY:50}`, and the negative-width rectangle
`{x:0, y:0, width:-100, height:50}` has the normalized bounds
`{minX:-100, minY:0, maxX:0, maxY:50}` (the span from `x + width` to `x`). -/
theorem c2_rectangle_bounds :
    getElementBounds (.rectangle sampleBase 0 0 100 50) = ⟨0, 0, 100, 50⟩ ∧
    getElementBounds (.rectangle sampleBase 0 0 (-100) 50) = ⟨-100, 0, 0, 50⟩ := by
  constructor <;> norm_num [getElementBounds, rectBounds]

/-- Claim C5: the coordinate transforms are exact inverses — for every point
and every view with nonzero scale, `screenToWorld (worldToScreen p v) v = p`
(exactly, in the rational model of real arithmetic). -/
theorem c5_round_trip (p : Point) (v : ViewState) (h : v.scale ≠ 0) :
    screenToWorld (worldToScreen p v) v = p := by
  obtain ⟨px, py⟩ := p
  obtain ⟨vx, vy, s⟩ := v
  simp only [screenToWorld, worldToScreen, Point.mk.injEq] at *
  constructor <;> field_simp

/-- Witness for C5 at `p = (3, 5)`, `v = (7, 11, 2)`. -/
theorem c5_round_trip_witness :
    ((⟨7, 11, 2⟩ : ViewState).scale ≠ 0) ∧
    screenToWorld (worldToScreen ⟨3, 5⟩ ⟨7, 11, 2⟩) ⟨7, 11, 2⟩ = (⟨3, 5⟩ : Point) :=
  ⟨by norm_num, c5_round_trip ⟨3, 5⟩ ⟨7, 11, 2⟩ (by norm_num)⟩

/-- Claim C9, counterexample: the bounds invariant fails on a circle with
negative radius — `getElementBounds` of a circle of radius `-1` at the origin
has `minX = 1 > maxX = -1`. -/
theorem c9_counterexample :
    ¬ ((getElementBounds (.circle sampleBase 0 0 (-1))).minX
          ≤ (getElementBounds (.circle sampleBase 0 0 (-1))).maxX ∧
       (getElementBounds (.circle sampleBase 0 0 (-1))).minY
          ≤ (getElementBounds (.circle sampleBase 0 0 (-1))).maxY) := by
  norm_num [getElementBounds]

/-- Claim C9, amended: for every shape whose radius is non-negative when it is
a circle (the only variant whose bounds formula is not a `min`/`max`), the
bounds returned by `getElementBounds` satisfy `minX ≤ maxX` and
`minY ≤ maxY` — including rectangles and images with negative width/height,
triangles, arrows, and pencils with an empty point list. -/
theorem c9_bounds_ordered (el : WhiteboardElement) (h : radiusNonneg el = true) :
    (getElementBounds el).minX ≤ (getElementBounds el).maxX ∧
    (getElementBounds el).minY ≤ (getElementBounds el).maxY := by
  cases el with
  | rectangle b rx ry w hh =>
      simp only [getElementBounds, rectBounds]
      exact ⟨le_add_of_nonneg_right (abs_nonneg _), le_add_of_nonneg_right (abs_nonneg _)⟩
  | image b rx ry w hh src =>
      simp only [getElementBounds, rectBounds]
      exact ⟨le_add_of_nonneg_right (abs_nonneg _), le_add_of_nonneg_right (abs_nonneg _)⟩
  | circle b cx cy r =>
      simp only [radiusNonneg, decide_eq_true_eq] at h
      simp only [getElementBounds]
      constructor <;> linarith
  | triangle b tx ty p1 p2 p3 =>
      simp only [getElementBounds, listMin, listMax]
      exact ⟨le_trans (foldl_min_le _ _) (le_foldl_max _ _),
             le_trans (foldl_min_le _ _) (le_foldl_max _ _)⟩
  | arrow b ax ay ex ey =>
      simp only [getElementBounds]
      exact ⟨le_trans (min_le_left _ _) (le_max_left _ _),
             le_trans (min_le_left _ _) (le_max_left _ _)⟩
  | pencil b px py pts =>
      cases pts with
      | nil => simp [getElementBounds]
      | cons p rest =>
          simp only [getElementBounds, if_neg (List.cons_ne_nil p rest),
            List.map_cons, listMin, listMax]
          exact ⟨le_trans (foldl_min_le _ _) (le_foldl_max _ _),
                 le_trans (foldl_min_le _ _) (le_foldl_max _ _)⟩

/-- Witness for C9 at a circle of radius 5. -/
theorem c9_bounds_ordered_witness :
    radiusNonneg (.circle sampleBase 0 0 5) = true ∧
    ((getElementBounds (.circle sampleBase 0 0 5)).minX
        ≤ (getElementBounds (.circle sampleBase 0 0 5)).maxX ∧
     (getElementBounds (.circle sampleBase 0 0 5)).minY
        ≤ (getElementBounds (.circle sampleBase 0 0 5)).maxY) :=
  ⟨by decide, c9_bounds_ordered (.circle sampleBase 0 0 5) (by decide)⟩

/-- Claim C10: a Pencil element with fewer than two recorded points is never
hit — `hitTestElement` returns `false` for every query point and every zoom,
even when the query point coincides with the single recorded point, because
the consecutive-pair loop has no pair to test. -/
theorem c10_short_pencil_never_hit (rf : RealFns) (b : BaseFields) (px py : ℚ)
    (pts : List Point) (h : pts.length < 2) (pos : Point) (zoom : ℚ) :
    hitTestElement rf (.pencil b px py pts) pos zoom = false := by
  match pts, h with
  | [], _ => simp [hitTestElement]
  | [p], _ => simp [hitTestElement]

/-- Witness for C10: a one-point pencil queried exactly at its point. -/
theorem c10_short_pencil_never_hit_witness :
    ([(⟨5, 5⟩ : Point)] : List Point).length < 2 ∧
    hitTestElement qFns (.pencil sampleBase 0 0 [⟨5, 5⟩]) ⟨5, 5⟩ 1 = false :=
  ⟨by decide, c10_short_pencil_never_hit qFns sampleBase 0 0 [⟨5, 5⟩] (by decide) ⟨5, 5⟩ 1⟩

/-- Claim C3: at `p1 = (0,0)`, `p2 = (1,0)` and `spacing = 0` the step count
of `interpolatePoints` is the division by zero `dist / 0 = Infinity`, so the
interpolation loop never terminates — there is no minimum spacing floor in
the code. -/
theorem c3_no_spacing_floor (rf : RealFns) (h : rf.sqrt 1 = 1) :
    interpSteps rf ⟨0, 0⟩ ⟨1, 0⟩ 0 = .inf ∧
    (interpSteps rf ⟨0, 0⟩ ⟨1, 0⟩ 0).iterations = none := by
  have hd : distance rf ⟨0, 0⟩ ⟨1, 0⟩ = 1 := by
    show rf.sqrt (((0 : ℚ) - 1) ^ 2 + ((0 : ℚ) - 0) ^ 2) = 1
    rw [show ((0 : ℚ) - 1) ^ 2 + ((0 : ℚ) - 0) ^ 2 = 1 by norm_num, h]
  refine ⟨?_, ?_⟩ <;> simp [interpSteps, hd, StepCount.iterations]

/-- Witness for C3 at the computable instantiation `qFns`. -/
theorem c3_no_spacing_floor_witness :
    qFns.sqrt 1 = 1 ∧
    (interpSteps qFns ⟨0, 0⟩ ⟨1, 0⟩ 0 = .inf ∧
     (interpSteps qFns ⟨0, 0⟩ ⟨1, 0⟩ 0).iterations = none) := by
  have h : qFns.sqrt 1 = 1 := by
    show ratSqrt 1 = 1
    norm_num [ratSqrt, show Int.toNat 1 = 1 from rfl]
  exact ⟨h, c3_no_spacing_floor qFns h⟩

/-- Claim C7: `hitTestElement` tests an Arrow with the near-line predicate at
threshold `10 / zoom`; concretely, for the arrow from `(0,0)` to `(4,0)`, the
query point `(2, 9)` at perpendicular distance 9 (inside the
threshold-expanded bounding box) is a hit at zoom 1 (`9 < 10`) and not a hit
at zoom 2 (`9 < 5` fails). -/
theorem c7_arrow_tolerance (rf : RealFns) (h : rf.sqrt 16 = 4) :
    (∀ (b : BaseFields) (ax ay ex ey : ℚ) (pos : Point) (zoom : ℚ),
        hitTestElement rf (.arrow b ax ay ex ey) pos zoom
          = isPointNearLine rf pos ⟨ax, ay⟩ ⟨ex, ey⟩ (10 / zoom)) ∧
    hitTestElement rf (.arrow sampleBase 0 0 4 0) ⟨2, 9⟩ 1 = true ∧
    hitTestElement rf (.arrow sampleBase 0 0 4 0) ⟨2, 9⟩ 2 = false := by
  refine ⟨fun b ax ay ex ey pos zoom => rfl, ?_, ?_⟩ <;>
    norm_num [hitTestElement, isPointNearLine, distance, h]

/-- Witness for C7 at the computable instantiation `qFns`. -/
theorem c7_arrow_tolerance_witness :
    qFns.sqrt 16 = 4 ∧
    hitTestElement qFns (.arrow sampleBase 0 0 4 0) ⟨2, 9⟩ 1 = true ∧
    hitTestElement qFns (.arrow sampleBase 0 0 4 0) ⟨2, 9⟩ 2 = false := by
  have h : qFns.sqrt 16 = 4 := by
    show ratSqrt 16 = 4
    norm_num [ratSqrt, show Int.toNat 16 = 16 from rfl]
  exact ⟨h, (c7_arrow_tolerance qFns h).2.1, (c7_arrow_tolerance qFns h).2.2⟩

/-- An angle computed as `radToDeg (acos (num / den)) || 0` degrades to `0`
whenever the division is by zero or the cosine argument leaves `[-1, 1]`. -/
lemma orZero_of_bad_arg (rf : RealFns)
    (hacos : ∀ q : ℚ, q < -1 ∨ 1 < q → rf.acos q = none)
    (num den : ℚ) (h : den = 0 ∨ num / den < -1 ∨ 1 < num / den) :
    orZero (Option.map (radToDeg rf) ((jsDiv num den).bind rf.acos)) = 0 := by
  by_cases hd : den = 0
  · simp [jsDiv, hd, orZero]
  · rcases h with h | h | h
    · exact absurd h hd
    · simp [jsDiv, hd, hacos _ (Or.inl h), orZero]
    · simp [jsDiv, hd, hacos _ (Or.inr h), orZero]

/-- Claim C8: for every triple of points, and every `acos` that yields `NaN`
outside `[-1, 1]`, each angle of `getTriangleAngles` degrades to `0` whenever
its law-of-cosines cosine argument is undefined (zero denominator, i.e. a
zero-length side) or falls outside `[-1, 1]`; in particular no angle is ever
`NaN` — the `|| 0` fallback always yields a number. -/
theorem c8_angles_never_nan (rf : RealFns)
    (hacos : ∀ q : ℚ, q < -1 ∨ 1 < q → rf.acos q = none)
    (p1 p2 p3 : Point) :
    ((2 * rf.sqrt (distance rf p1 p3 ^ 2) * rf.sqrt (distance rf p1 p2 ^ 2) = 0 ∨
      (distance rf p1 p3 ^ 2 + distance rf p1 p2 ^ 2 - distance rf p2 p3 ^ 2) /
          (2 * rf.sqrt (distance rf p1 p3 ^ 2) * rf.sqrt (distance rf p1 p2 ^ 2)) < -1 ∨
      1 < (distance rf p1 p3 ^ 2 + distance rf p1 p2 ^ 2 - distance rf p2 p3 ^ 2) /
          (2 * rf.sqrt (distance rf p1 p3 ^ 2) * rf.sqrt (distance rf p1 p2 ^ 2))) →
        (getTriangleAngles rf p1 p2 p3).A = 0) ∧
    ((2 * rf.sqrt (distance rf p2 p3 ^ 2) * rf.sqrt (distance rf p1 p2 ^ 2) = 0 ∨
      (distance rf p2 p3 ^ 2 + distance rf p1 p2 ^ 2 - distance rf p1 p3 ^ 2) /
          (2 * rf.sqrt (distance rf p2 p3 ^ 2) * rf.sqrt (distance rf p1 p2 ^ 2)) < -1 ∨
      1 < (distance rf p2 p3 ^ 2 + distance rf p1 p2 ^ 2 - distance rf p1 p3 ^ 2) /
          (2 * rf.sqrt (distance rf p2 p3 ^ 2) * rf.sqrt (distance rf p1 p2 ^ 2))) →
        (getTriangleAngles rf p1 p2 p3).B = 0) ∧
    ((2 * rf.sqrt (distance rf p2 p3 ^ 2) * rf.sqrt (distance rf p1 p3 ^ 2) = 0 ∨
      (distance rf p2 p3 ^ 2 + distance rf p1 p3 ^ 2 - distance rf p1 p2 ^ 2) /
          (2 * rf.sqrt (distance rf p2 p3 ^ 2) * rf.sqrt (distance rf p1 p3 ^ 2)) < -1 ∨
      1 < (distance rf p2 p3 ^ 2 + distance rf p1 p3 ^ 2 - distance rf p1 p2 ^ 2) /
          (2 * rf.sqrt (distance rf p2 p3 ^ 2) * rf.sqrt (distance rf p1 p3 ^ 2))) →
        (getTriangleAngles rf p1 p2 p3).C = 0) := by
  refine ⟨fun h => ?_, fun h => ?_, fun h => ?_⟩
  · exact orZero_of_bad_arg rf hacos _ _ h
  · exact orZero_of_bad_arg rf hacos _ _ h
  · exact orZero_of_bad_arg rf hacos _ _ h

/-- Witness for C8 at the fully degenerate triple `(0,0), (0,0), (0,0)` (all
sides zero, every denominator zero): all three angles are `0`. -/
theorem c8_angles_never_nan_witness :
    (getTriangleAngles qFns ⟨0, 0⟩ ⟨0, 0⟩ ⟨0, 0⟩).A = 0 ∧
    (getTriangleAngles qFns ⟨0, 0⟩ ⟨0, 0⟩ ⟨0, 0⟩).B = 0 ∧
    (getTriangleAngles qFns ⟨0, 0⟩ ⟨0, 0⟩ ⟨0, 0⟩).C = 0 := by
  have hacos : ∀ q : ℚ, q < -1 ∨ 1 < q → qFns.acos q = none := by
    intro q hq
    show (if q < -1 ∨ 1 < q then none else some 0) = none
    exact if_pos hq
  have h0 : distance qFns (⟨0, 0⟩ : Point) ⟨0, 0⟩ = 0 := by
    show ratSqrt (((0 : ℚ) - 0) ^ 2 + ((0 : ℚ) - 0) ^ 2) = 0
    norm_num [ratSqrt]
  have hs : qFns.sqrt (distance qFns (⟨0, 0⟩ : Point) ⟨0, 0⟩ ^ 2) = 0 := by
    rw [h0]
    show ratSqrt ((0 : ℚ) ^ 2) = 0
    norm_num [ratSqrt]
  have hz : 2 * qFns.sqrt (distance qFns (⟨0, 0⟩ : Point) ⟨0, 0⟩ ^ 2) *
      qFns.sqrt (distance qFns (⟨0, 0⟩ : Point) ⟨0, 0⟩ ^ 2) = 0 := by
    rw [hs]; ring
  exact ⟨(c8_angles_never_nan qFns hacos _ _ _).1 (Or.inl hz),
         (c8_angles_never_nan qFns hacos _ _ _).2.1 (Or.inl hz),
         (c8_angles_never_nan qFns hacos _ _ _).2.2 (Or.inl hz)⟩

/-- Length of the capped tail: at most 50, all of a shorter list. -/
lemma tailCap_length {α : Type} (L : List α) : (tailCap L).length = min L.length 50 := by
  simp only [tailCap, List.length_drop]
  omega

/-- One push from a capped-tail state at the tail extends the underlying
(uncapped) push sequence by one snapshot. -/
lemma pushToHistory_tailCap {α : Type} (M : List α) (hM : M ≠ []) (x : α) :
    pushToHistory ⟨tailCap M, (tailCap M).length - 1⟩ x
      = ⟨tailCap (M ++ [x]), (tailCap (M ++ [x])).length - 1⟩ := by
  have hpos : 0 < M.length := List.length_pos.mpr hM
  have hlen : (tailCap M).length = min M.length 50 := tailCap_length M
  have hpos2 : 0 < (tailCap M).length := by omega
  have htake : (tailCap M).take ((tailCap M).length - 1 + 1) = tailCap M := by
    rw [Nat.sub_add_cancel hpos2, List.take_length]
  by_cases hcap : M.length ≤ 49
  · have h1 : tailCap M = M := by
      unfold tailCap
      rw [show M.length - 50 = 0 by omega, List.drop_zero]
    have h2 : tailCap (M ++ [x]) = M ++ [x] := by
      unfold tailCap
      rw [show (M ++ [x]).length - 50 = 0 by simp; omega, List.drop_zero]
    simp only [pushToHistory, htake, h1, h2]
    rw [if_neg (by simp; omega), Nat.sub_add_cancel hpos, List.take_length]
  · have h50 : (tailCap M).length = 50 := by omega
    have hdrop : (tailCap M ++ [x]).drop 1 = tailCap (M ++ [x]) := by
      have hlen2 : (M ++ [x]).length = M.length + 1 := by simp
      unfold tailCap
      rw [hlen2,
          List.drop_append_of_le_length (by rw [List.length_drop]; omega),
          List.drop_drop,
          List.drop_append_of_le_length (by omega),
          show M.length - 50 + 1 = M.length + 1 - 50 by omega]
    simp only [pushToHistory, htake]
    rw [if_pos (by simp [h50])]
    rw [hdrop]

/-- Pushing a whole sequence of snapshots from a capped-tail state: the stack
is always the capped tail of the uncapped push sequence, with the index at
the tail. -/
lemma pushAll_tailCap {α : Type} (ss : List α) :
    ∀ (M : List α), M ≠ [] →
      pushAll ⟨tailCap M, (tailCap M).length - 1⟩ ss
        = ⟨tailCap (M ++ ss), (tailCap (M ++ ss)).length - 1⟩ := by
  induction ss with
  | nil => intro M hM; simp [pushAll]
  | cons x ss ih =>
      intro M hM
      have step : pushAll ⟨tailCap M, (tailCap M).length - 1⟩ (x :: ss)
          = pushAll ⟨tailCap (M ++ [x]), (tailCap (M ++ [x])).length - 1⟩ ss := by
        simp only [pushAll, List.foldl_cons, pushToHistory_tailCap M hM x]
      rw [step, ih (M ++ [x]) (by simp)]
      simp [List.append_assoc]

/-- Claim C4: starting from the initial history (one snapshot, index 0) and
pushing any 60 snapshots, the stack holds exactly 50 entries — the most
recent 50 pushes in push order — and `currentIndex` points at the tail. -/
theorem c4_history_cap {α : Type} (init : α) (ss : List α) (h : ss.length = 60) :
    (pushAll ⟨[init], 0⟩ ss).history = ss.drop 10 ∧
    (pushAll ⟨[init], 0⟩ ss).history.length = 50 ∧
    (pushAll ⟨[init], 0⟩ ss).currentIndex = 49 := by
  have h0 : (⟨[init], 0⟩ : HistoryState α) = ⟨tailCap [init], (tailCap [init]).length - 1⟩ := by
    simp [tailCap]
  have hcap : tailCap ([init] ++ ss) = ss.drop 10 := by
    unfold tailCap
    rw [show ([init] ++ ss).length - 50 = 11 by simp [h], List.singleton_append,
        show (11 : ℕ) = 10 + 1 from rfl, List.drop_succ_cons]
  rw [h0, pushAll_tailCap ss [init] (by simp), hcap]
  refine ⟨rfl, ?_, ?_⟩ <;> simp [List.length_drop, h]

/-- Witness for C4: pushing the 60 distinct snapshots `0, …, 59` onto the
initial one-snapshot stack. -/
theorem c4_history_cap_witness :
    (List.range 60).length = 60 ∧
    ((pushAll ⟨[100], 0⟩ (List.range 60) : HistoryState ℕ).history = (List.range 60).drop 10 ∧
     (pushAll ⟨[100], 0⟩ (List.range 60) : HistoryState ℕ).history.length = 50 ∧
     (pushAll ⟨[100], 0⟩ (List.range 60) : HistoryState ℕ).currentIndex = 49) :=
  ⟨by simp, c4_history_cap 100 (List.range 60) (by simp)⟩

/-- A shape list every member of which fails the rough-bounds test is passed
through by the erase fold unchanged: the accumulator grows by exactly the
input list, the `hasChanges` flag and the id counter are untouched. -/
lemma foldlM_eraseStep_miss (rf : RealFns) (ctx : EraseCtx) (wp : Point) (radius : ℚ) :
    ∀ (L acc : List WhiteboardElement) (flag : Bool) (k : ℕ),
      (∀ el ∈ L, isElementRoughlyIntersecting el wp radius = false) →
      L.foldlM (eraseStep rf ctx wp radius) (acc, flag, k) = some (acc ++ L, flag, k) := by
  intro L
  induction L with
  | nil => intro acc flag k _; simp
  | cons el rest ih =>
      intro acc flag k h
      have hel : isElementRoughlyIntersecting el wp radius = false := h el (by simp)
      have hstep : eraseStep rf ctx wp radius (acc, flag, k) el = some (acc ++ [el], flag, k) := by
        simp [eraseStep, hel]
      rw [List.foldlM_cons, hstep]
      show rest.foldlM (eraseStep rf ctx wp radius) (acc ++ [el], flag, k) = _
      rw [ih (acc ++ [el]) flag k (fun e he => h e (by simp [he]))]
      simp

/-- Claim C6: if the eraser position lies outside every shape's axis-aligned
bounds expanded by `strokeWidth + radius` (with `radius = ERASER_RADIUS /
view.scale`), then `performErase` returns the input shape list itself — no
shape is replaced by Pencil shapes. -/
theorem c6_erase_miss_identity (rf : RealFns) (ctx : EraseCtx) (wp : Point)
    (L : List WhiteboardElement)
    (h : ∀ el ∈ L, isElementRoughlyIntersecting el wp (ERASER_RADIUS / ctx.view.scale) = false) :
    performErase rf ctx wp L = some L := by
  simp only [performErase]
  rw [foldlM_eraseStep_miss rf ctx wp (ERASER_RADIUS / ctx.view.scale) L [] false 0 h]
  simp

/-- Witness for C6: a single rectangle far from the eraser position. -/
theorem c6_erase_miss_identity_witness :
    (∀ el ∈ [WhiteboardElement.rectangle sampleBase 100 100 10 10],
        isElementRoughlyIntersecting el ⟨0, 0⟩ (ERASER_RADIUS / sampleCtx.view.scale) = false) ∧
    performErase qFns sampleCtx ⟨0, 0⟩ [.rectangle sampleBase 100 100 10 10]
      = some [.rectangle sampleBase 100 100 10 10] := by
  have h : ∀ el ∈ [WhiteboardElement.rectangle sampleBase 100 100 10 10],
      isElementRoughlyIntersecting el ⟨0, 0⟩ (ERASER_RADIUS / sampleCtx.view.scale) = false := by
    intro el hel
    rw [List.mem_singleton] at hel
    subst hel
    norm_num [isElementRoughlyIntersecting, roughPoints, jsOrNum, sampleBase, ERASER_RADIUS,
      sampleCtx, WhiteboardElement.base]
  exact ⟨h, c6_erase_miss_identity qFns sampleCtx ⟨0, 0⟩ _ h⟩

end Theorems

end Whiteboard
